import Mathlib

/-!
Shallow embedding of the `limo` tool-launcher core (src/src/core/tool.cpp,
src/src/core/heroicdetector.cpp) and proofs about its command synthesis,
JSON codec and Heroic detection logic.

Machine `std::string` values are modelled as Lean `String`; `std::filesystem::path`
fields are modelled as the strings they print to (the code only ever calls
`.string()` on them before use).  The `std::map<std::string, std::string>`
environment-variable container is modelled as a key-sorted association list
(`List (String × String)`) together with the insertion operation `mapInsert`,
which mirrors `std::map::operator[]`-assignment: keys are kept in ascending
lexicographic order and an existing key's value is overwritten in place.
`std::less<std::string>` byte-wise comparison agrees with Lean's `String`
lexicographic order (UTF-8 byte order preserves codepoint order).
-/

/-- `Tool::Runtime` from tool.h: declaration order native, wine, protontricks, steam
(spec §6 fixes the integer codes 0..3 in this order). -/
inductive Runtime where
  | native
  | wine
  | protontricks
  | steam
deriving DecidableEq

/-- `LauncherType` from launcher.h: declaration order steam, heroic. -/
inductive LauncherType where
  | steam
  | heroic
deriving DecidableEq

/-- Modelled from the spec: the default member initializers of `Tool` live in
tool.h, which is not part of the sources; per spec §3/§4.2 an absent `runtime`
defaults to `native`, strings/paths default to empty, `steamAppId` to 0,
`useFlatpakRuntime` to false and the launcher type to `steam` (the first
enumerator).  The field list itself is taken from tool.cpp (constructors,
`toJson`, accessors). -/
structure Tool where
  name : String := ""
  icon_path : String := ""
  executable_path : String := ""
  runtime : Runtime := Runtime.native
  use_flatpak_runtime : Bool := false
  prefix_path : String := ""
  steam_app_id : Int := 0
  working_directory : String := ""
  environment_variables : List (String × String) := []
  arguments : String := ""
  protontricks_arguments : String := ""
  command_overwrite : String := ""
  launcher_type : LauncherType := LauncherType.steam
  launcher_identifier : String := ""
  proton_path : String := ""
deriving DecidableEq

/-- `std::string::starts_with('"')`: the first character exists and is `"`. -/
def startsWithQuote (s : String) : Bool :=
  match s.data with
  | [] => false
  | c :: _ => c == '"'

/-- `std::string::ends_with('"')`: the last character exists and is `"`. -/
def endsWithQuote (s : String) : Bool :=
  match s.data.getLast? with
  | none => false
  | some c => c == '"'

/-- `Tool::encloseInQuotes` (tool.cpp:396-402): wrap in double quotes unless the
string already starts and ends with a double-quote character. -/
def encloseInQuotes (s : String) : String :=
  if startsWithQuote s && endsWithQuote s then s
  else "\"" ++ s ++ "\""

/-- One step of `Tool::appendEnvironmentVariables`'s loop body (tool.cpp:386-393):
separate with a space when the accumulated command is non-empty, emit `--env=`
when sandboxed, then `variable=<quoted value>`. -/
def appendEnvVarStep (is_flatpak : Bool) (command : String) (kv : String × String) : String :=
  (if command ≠ "" then command ++ " " else command)
    ++ (if is_flatpak then "--env=" else "") ++ kv.1 ++ "=" ++ encloseInQuotes kv.2

/-- `Tool::appendEnvironmentVariables` (tool.cpp:381-394), iterating the map's
entries in their (key-sorted) order. -/
def appendEnvironmentVariables (command : String) (environment_variables : List (String × String))
    (is_flatpak : Bool) : String :=
  environment_variables.foldl (appendEnvVarStep is_flatpak) command

/-- Lexicographic strict comparison of character lists, the order of
`std::less<std::string>` (byte-wise comparison of UTF-8 strings coincides with
codepoint-lexicographic comparison). -/
def charListLt : List Char → List Char → Bool
  | [], [] => false
  | [], _ :: _ => true
  | _ :: _, [] => false
  | a :: as, b :: bs => if a < b then true else if b < a then false else charListLt as bs

/-- `std::less<std::string>`: the comparator ordering `std::map` keys. -/
def strLt (a b : String) : Bool :=
  charListLt a.data b.data

/-- `std::map<std::string, std::string>` insertion (`operator[]` assignment):
keep keys in ascending order, overwrite the value of an existing key. -/
def mapInsert : List (String × String) → String → String → List (String × String)
  | [], k, v => [(k, v)]
  | (k₁, v₁) :: rest, k, v =>
    if strLt k k₁ then (k, v) :: (k₁, v₁) :: rest
    else if k = k₁ then (k₁, v) :: rest
    else (k₁, v₁) :: mapInsert rest k v

/-- Building a `std::map` from a sequence of insertions (initializer list /
`operator[]` loop). -/
def mkMap (l : List (String × String)) : List (String × String) :=
  l.foldl (fun m kv => mapInsert m kv.1 kv.2) []

/-- `Tool::getCommand` (tool.cpp:190-275), a direct transcription.  The two
`std::map` literals are rendered through `mkMap`, mirroring the key-sorted
container the source constructs. -/
def Tool.getCommand (t : Tool) (is_flatpak : Bool) : String :=
  if t.command_overwrite ≠ "" then
    if is_flatpak then "flatpak-spawn --host " ++ t.command_overwrite
    else t.command_overwrite
  else
    let command : String := if is_flatpak then "flatpak-spawn --host " else ""
    if t.runtime = Runtime.steam then
      let command := command ++
        (if !t.use_flatpak_runtime then "steam " else "flatpak run com.valvesoftware.Steam ")
      command ++ "-applaunch " ++ toString t.steam_app_id
    else if t.launcher_type = LauncherType.heroic ∧ t.runtime = Runtime.protontricks then
      let command :=
        if t.working_directory ≠ "" then
          if is_flatpak then command ++ "--directory=" ++ encloseInQuotes t.working_directory
          else command ++ "cd " ++ encloseInQuotes t.working_directory ++ "; "
        else command
      let command := appendEnvironmentVariables command
        (mkMap [("STEAM_COMPAT_DATA_PATH", t.prefix_path),
                ("STEAM_COMPAT_CLIENT_INSTALL_PATH", "/usr")]) is_flatpak
      let command := appendEnvironmentVariables command t.environment_variables is_flatpak
      let command := if command ≠ "" then command ++ " " else command
      let command := command ++ encloseInQuotes (t.proton_path ++ "/proton") ++ " run "
        ++ encloseInQuotes t.executable_path
      if t.arguments ≠ "" then command ++ " " ++ t.arguments else command
    else
      let command :=
        if t.working_directory ≠ "" then
          if is_flatpak then command ++ "--directory=" ++ encloseInQuotes t.working_directory
          else command ++ "cd " ++ encloseInQuotes t.working_directory ++ ";"
        else command
      let command := appendEnvironmentVariables command t.environment_variables is_flatpak
      let command :=
        if t.runtime = Runtime.wine ∧ t.prefix_path ≠ "" then
          appendEnvironmentVariables command (mkMap [("WINEPREFIX", t.prefix_path)]) is_flatpak
        else command
      let command := if command ≠ "" ∧ t.runtime ≠ Runtime.native then command ++ " " else command
      let command :=
        if t.runtime = Runtime.wine then command ++ "wine"
        else if t.runtime = Runtime.protontricks then
          let command := command ++
            (if t.use_flatpak_runtime then
              "flatpak run --command=protontricks-launch com.github.Matoking.protontricks "
            else "protontricks-launch ")
          let command := command ++ "--appid " ++ toString t.steam_app_id
          if t.protontricks_arguments ≠ "" then command ++ " " ++ t.protontricks_arguments
          else command
        else command
      let command := if command ≠ "" then command ++ " " else command
      let command := command ++ encloseInQuotes t.executable_path
      if t.arguments ≠ "" then command ++ " " ++ t.arguments else command

/-- The Tool of the spec's worked wine example (§8): runtime wine, executable
`/games/app.exe`, prefix `/home/u/.wine`, arguments `--fullscreen`, everything
else empty/default (built by the wine constructor, tool.cpp:23-33). -/
def wineExampleTool : Tool where
  runtime := Runtime.wine
  executable_path := "/games/app.exe"
  prefix_path := "/home/u/.wine"
  arguments := "--fullscreen"

/-- A concrete steam-runtime Tool used as an evaluation witness. -/
def steamExampleTool : Tool where
  runtime := Runtime.steam
  steam_app_id := 42

/-! ## JSON model (the `Json::Value` subset the codec uses) -/

/-- A JSON document, mirroring the `Json::Value` shapes `tool.cpp` reads and
writes; objects are association lists with distinct keys. -/
inductive Json where
  | null
  | bool (b : Bool)
  | int (n : Int)
  | str (s : String)
  | arr (elems : List Json)
  | obj (fields : List (String × Json))

/-- `Json::Value::isMember`: only objects have members. -/
def Json.isMember : Json → String → Bool
  | .obj fields, key => fields.any (fun f => f.1 == key)
  | _, _ => false

/-- `Json::Value::operator[](const char*)` on a const value: the member when the
key is present on an object, `null` otherwise. -/
def Json.getMem : Json → String → Json
  | .obj fields, key =>
    match fields.find? (fun f => f.1 == key) with
    | some f => f.2
    | none => .null
  | _, _ => .null

/-- `Json::Value::isString`. -/
def Json.isString : Json → Bool
  | .str _ => true
  | _ => false

/-- `Json::Value::asString` on the value shapes the codec encounters: strings
are returned as-is and `null` converts to the empty string (the conversions for
the remaining shapes are irrelevant to the codec's control flow). -/
def Json.asString : Json → String
  | .str s => s
  | .bool b => if b then "true" else "false"
  | .int n => toString n
  | _ => ""

/-- `Json::Value::asInt` on the value shapes the codec encounters. -/
def Json.asInt : Json → Int
  | .int n => n
  | .bool b => if b then 1 else 0
  | _ => 0

/-- `Json::Value::asBool` on the value shapes the codec encounters. -/
def Json.asBool : Json → Bool
  | .bool b => b
  | .int n => n ≠ 0
  | _ => false

/-! ## Tool serialization codec -/

/-- `static_cast<int>(runtime_)` with the declaration order of tool.h
(native=0, wine=1, protontricks=2, steam=3; spec §6). -/
def runtimeToInt : Runtime → Int
  | .native => 0
  | .wine => 1
  | .protontricks => 2
  | .steam => 3

/-- `static_cast<Tool::Runtime>(n)`: the inverse of `runtimeToInt` on the codes
0..3 the codec itself writes (other codes are undefined behavior in the source
and are mapped to `native` here). -/
def intToRuntime (n : Int) : Runtime :=
  if n = 1 then .wine
  else if n = 2 then .protontricks
  else if n = 3 then .steam
  else .native

/-- `static_cast<int>(launcher_type_)` (steam=0, heroic=1; spec §6). -/
def launcherTypeToInt : LauncherType → Int
  | .steam => 0
  | .heroic => 1

/-- `static_cast<LauncherType>(n)`: inverse of `launcherTypeToInt` on the codes
the codec writes. -/
def intToLauncherType (n : Int) : LauncherType :=
  if n = 1 then .heroic else .steam

/-- The string-to-runtime mapping of the codec (tool.cpp:82-85 and 134-137):
unrecognized names default to `native`. -/
def parseRuntimeString (s : String) : Runtime :=
  if s = "protontricks" then .protontricks
  else if s = "wine" then .wine
  else if s = "steam" then .steam
  else .native

/-- The `environment_variables` read loop (tool.cpp:148-152): indices 0..size-1
of the array are inserted into the `std::map` in list order.  For an array the
index loop visits exactly the elements in order; every other value shape has
`size() == 0` and contributes nothing. -/
def readEnvList : Json → List (String × String)
  | .arr elems =>
    elems.foldl
      (fun m e => mapInsert m (e.getMem "variable").asString (e.getMem "value").asString) []
  | _ => []

/-- Shared tail of both schema branches of `Tool::Tool(const Json::Value&)`
(tool.cpp:94-122 and 158-186): the launcher fields, applied in source order so
that the typed keys win over the legacy string keys. -/
def applyLauncherFields (j : Json) (t : Tool) : Tool :=
  let t := if j.isMember "launcher" then
      { t with launcher_type :=
          if (j.getMem "launcher").asString = "heroic" then LauncherType.heroic
          else LauncherType.steam }
    else t
  let t := if j.isMember "launcher_type" then
      { t with launcher_type := intToLauncherType (j.getMem "launcher_type").asInt }
    else t
  let t := if j.isMember "appName" then
      { t with launcher_identifier := (j.getMem "appName").asString }
    else t
  let t := if j.isMember "launcher_identifier" then
      { t with launcher_identifier := (j.getMem "launcher_identifier").asString }
    else t
  let t := if j.isMember "proton_path" then
      { t with proton_path := (j.getMem "proton_path").asString }
    else t
  t

/-- `Tool::Tool(const Json::Value&)` (tool.cpp:58-188): dual-schema
deserialization, selected on the presence of `use_flatpak_runtime`. -/
def Tool.fromJson (j : Json) : Tool :=
  if !(j.isMember "use_flatpak_runtime") then
    let t : Tool :=
      { name := (j.getMem "name").asString
        icon_path := (j.getMem "icon_path").asString
        command_overwrite := (j.getMem "command").asString }
    let t := if j.isMember "executable_path" then
        { t with executable_path := (j.getMem "executable_path").asString }
      else t
    let t := if j.isMember "working_directory" then
        { t with working_directory := (j.getMem "working_directory").asString }
      else t
    let t := if j.isMember "arguments" then
        { t with arguments := (j.getMem "arguments").asString }
      else t
    let t := if j.isMember "protontricks_arguments" then
        { t with protontricks_arguments := (j.getMem "protontricks_arguments").asString }
      else t
    let t := if j.isMember "runtime" then
        { t with runtime :=
            if (j.getMem "runtime").isString then parseRuntimeString (j.getMem "runtime").asString
            else intToRuntime (j.getMem "runtime").asInt }
      else t
    applyLauncherFields j t
  else
    let t : Tool :=
      { name := (j.getMem "name").asString
        icon_path := (j.getMem "icon_path").asString
        executable_path := (j.getMem "executable_path").asString
        runtime :=
          if (j.getMem "runtime").isString then parseRuntimeString (j.getMem "runtime").asString
          else intToRuntime (j.getMem "runtime").asInt
        use_flatpak_runtime := (j.getMem "use_flatpak_runtime").asBool
        prefix_path := (j.getMem "prefix_path").asString
        steam_app_id := (j.getMem "steam_app_id").asInt
        working_directory := (j.getMem "working_directory").asString
        environment_variables := readEnvList (j.getMem "environment_variables")
        arguments := (j.getMem "arguments").asString
        protontricks_arguments := (j.getMem "protontricks_arguments").asString
        command_overwrite := (j.getMem "command").asString }
    applyLauncherFields j t

/-- `Tool::toJson` (tool.cpp:277-304): the current schema, all fields present,
enumerations as integers, environment variables as an ordered list of
`{variable, value}` pair objects in the map's (key-sorted) iteration order. -/
def Tool.toJson (t : Tool) : Json :=
  Json.obj
    [("name", .str t.name),
     ("icon_path", .str t.icon_path),
     ("executable_path", .str t.executable_path),
     ("runtime", .int (runtimeToInt t.runtime)),
     ("use_flatpak_runtime", .bool t.use_flatpak_runtime),
     ("prefix_path", .str t.prefix_path),
     ("steam_app_id", .int t.steam_app_id),
     ("working_directory", .str t.working_directory),
     ("environment_variables",
       .arr (t.environment_variables.map
         (fun kv => Json.obj [("variable", .str kv.1), ("value", .str kv.2)]))),
     ("arguments", .str t.arguments),
     ("protontricks_arguments", .str t.protontricks_arguments),
     ("command", .str t.command_overwrite),
     ("launcher_type", .int (launcherTypeToInt t.launcher_type)),
     ("launcher_identifier", .str t.launcher_identifier),
     ("proton_path", .str t.proton_path)]

/-- A fully populated Tool with a two-entry (key-sorted) environment used as an
evaluation witness for the codec. -/
def envExampleTool : Tool where
  name := "t"
  icon_path := "/i.png"
  executable_path := "/games/app.exe"
  runtime := Runtime.protontricks
  use_flatpak_runtime := true
  prefix_path := "/pfx"
  steam_app_id := 7
  working_directory := "/wd"
  environment_variables := [("A", "1"), ("B", "2")]
  arguments := "-a"
  protontricks_arguments := "-p"
  launcher_type := LauncherType.heroic
  launcher_identifier := "Croc"
  proton_path := "/proton"

/-! ## Heroic detector (heroicdetector.cpp)

The detector's filesystem reads are embedded as explicit inputs: the tools
directory is given by its path together with `Option`-wrapped immediate
directory entries (`none` models an empty/non-existent tools path, matching
`tools_dir.empty() || !sfs::exists(tools_dir)`), each entry being a
`(filename, is_directory)` pair in iteration order; a per-game config file that
exists and parses is given as its `Json` document. -/

/-- `HeroicGameInfo` (heroicdetector.h:18-32); all members are
default-constructed to empty. -/
structure HeroicGameInfo where
  app_name : String := ""
  title : String := ""
  install_path : String := ""
  wine_prefix : String := ""
  wine_version : String := ""
  proton_path : String := ""
deriving DecidableEq

/-- `pat` is a prefix of the second list. -/
def isPrefixList : List Char → List Char → Bool
  | [], _ => true
  | _ :: _, [] => false
  | a :: as, b :: bs => a == b && isPrefixList as bs

/-- `pat` occurs contiguously somewhere in the list. -/
def containsList (pat : List Char) : List Char → Bool
  | [] => pat.isEmpty
  | a :: rest => isPrefixList pat (a :: rest) || containsList pat rest

/-- `std::string::find(other) != npos`: `pat` occurs contiguously in `s`. -/
def strContains (s pat : String) : Bool :=
  containsList pat.data s.data

/-- `HeroicDetector::findProtonPath` (heroicdetector.cpp:236-269): exact-name
match first (it must exist and be a directory), then the first directory entry
whose name contains the version as a substring, else the empty path. -/
def findProtonPath (wine_version : String) (tools_dir : String)
    (listing : Option (List (String × Bool))) : String :=
  match listing with
  | none => ""
  | some entries =>
    let exact :=
      match entries.find? (fun e => e.1 == wine_version) with
      | some e => e.2
      | none => false
    if exact then tools_dir ++ "/" ++ wine_version
    else
      match entries.find? (fun e => e.2 && strContains e.1 wine_version) with
      | some e => tools_dir ++ "/" ++ e.1
      | none => ""

/-- `Json::Value::isMember` as the program observes it inside a `try` block:
defined on objects and on null (false), while every other value shape throws
`Json::LogicError`, modelled as `none`. -/
def Json.isMemberT : Json → String → Option Bool
  | .obj fields, key => some (fields.any (fun f => f.1 == key))
  | .null, _ => some false
  | _, _ => none

/-- `Json::Value::asString` as the program observes it inside a `try` block:
null, strings, booleans and integers convert, while arrays and objects throw
`Json::LogicError`, modelled as `none`. -/
def Json.asStringT : Json → Option String
  | .null => some ""
  | .str s => some s
  | .bool b => some (if b then "true" else "false")
  | .int n => some (toString n)
  | _ => none

/-- The tail of `HeroicDetector::parseGameConfig` (heroicdetector.cpp:164-171):
once the info record is built, resolve a Proton path when a non-empty wine
version was found, then return the record. -/
def finishGameConfig (info : HeroicGameInfo) (tools_dir : String)
    (tools_listing : Option (List (String × Bool))) : Option HeroicGameInfo :=
  if info.wine_version ≠ "" then
    some { info with proton_path := findProtonPath info.wine_version tools_dir tools_listing }
  else some info

/-- `HeroicDetector::parseGameConfig` (heroicdetector.cpp:117-179), for a game
config file that exists and parses to `doc`.  The body runs inside
`try { ... } catch(const Json::Exception&) { return std::nullopt; }`
(heroicdetector.cpp:128, 173-178): a `none` from one of the throwing accessors
(`Json.isMemberT`, `Json.asStringT`) models a thrown `Json::LogicError`
reaching the catch, which returns nothing.  A missing `install_path` or
`winePrefix` key returns nothing directly (heroicdetector.cpp:144-157).  The
`json["..."]` lookups reuse the total `Json.getMem`: they are only evaluated
after `isMemberT` succeeded on the same value, so it is an object there, where
`operator[]` does not throw. -/
def parseGameConfig (app_name : String) (doc : Json) (tools_dir : String)
    (tools_listing : Option (List (String × Bool))) : Option HeroicGameInfo :=
  match doc.isMemberT "install_path" with
  | none => none
  | some false => none
  | some true =>
    match (doc.getMem "install_path").asStringT with
    | none => none
    | some install =>
      match doc.isMemberT "winePrefix" with
      | none => none
      | some false => none
      | some true =>
        match (doc.getMem "winePrefix").asStringT with
        | none => none
        | some wine_prefix =>
          let info : HeroicGameInfo :=
            { app_name := app_name, install_path := install, wine_prefix := wine_prefix }
          match doc.isMemberT "wineVersion" with
          | none => none
          | some false => finishGameConfig info tools_dir tools_listing
          | some true =>
            match (doc.getMem "wineVersion").isMemberT "name" with
            | none => none
            | some false => finishGameConfig info tools_dir tools_listing
            | some true =>
              match ((doc.getMem "wineVersion").getMem "name").asStringT with
              | none => none
              | some wv =>
                finishGameConfig { info with wine_version := wv } tools_dir tools_listing


/-! ## Spec-side rendition of the Heroic/Proton branch (claims about §4.1 rule 3)

The spec phrases the branch as an ordered emission: an optional
working-directory prefix, then the compat/user environment-variable
assignments (each rendered per the quoting/sandbox rule and space-joined),
then the Proton invocation and the raw arguments.  `heroicSpecCommand` renders
exactly that, parameterized by the order in which the two Proton compat
variables appear; the global sandbox host-escape prefix of `getCommand`
precedes everything as in the other branches. -/

def heroicSpecCommand (compat : List (String × String)) (t : Tool) (sandboxed : Bool) : String :=
  let hostPrefix := if sandboxed then "flatpak-spawn --host " else ""
  let wdPart :=
    if t.working_directory ≠ "" then
      if sandboxed then "--directory=" ++ encloseInQuotes t.working_directory
      else "cd " ++ encloseInQuotes t.working_directory ++ "; "
    else ""
  let withEnv := appendEnvironmentVariables (hostPrefix ++ wdPart)
    (compat ++ t.environment_variables) sandboxed
  withEnv ++ " " ++ encloseInQuotes (t.proton_path ++ "/proton") ++ " run "
    ++ encloseInQuotes t.executable_path
    ++ (if t.arguments ≠ "" then " " ++ t.arguments else "")

/-- The Heroic/protontricks output exactly as claimed: the two Proton compat
variables in the claim's listed order, `STEAM_COMPAT_DATA_PATH` first. -/
def claimedHeroicCommand (t : Tool) (sandboxed : Bool) : String :=
  heroicSpecCommand
    [("STEAM_COMPAT_DATA_PATH", t.prefix_path), ("STEAM_COMPAT_CLIENT_INSTALL_PATH", "/usr")]
    t sandboxed

/-- The Heroic/protontricks output with the two Proton compat variables in the
key-sorted order the `std::map` actually yields:
`STEAM_COMPAT_CLIENT_INSTALL_PATH` first. -/
def sortedHeroicCommand (t : Tool) (sandboxed : Bool) : String :=
  heroicSpecCommand
    [("STEAM_COMPAT_CLIENT_INSTALL_PATH", "/usr"), ("STEAM_COMPAT_DATA_PATH", t.prefix_path)]
    t sandboxed

/-- A concrete Heroic/protontricks Tool (empty working directory and user
environment, so both renditions differ only in compat-variable order). -/
def heroicExampleTool : Tool where
  runtime := Runtime.protontricks
  launcher_type := LauncherType.heroic
  executable_path := "/games/app.exe"
  prefix_path := "/pfx"
  proton_path := "/tools/GE-Proton9-2"

/-- A concrete Tool whose command override is set. -/
def overrideExampleTool : Tool where
  name := "custom"
  runtime := Runtime.wine
  executable_path := "/ignored"
  command_overwrite := "mycmd --flag"

/-! ## Basic string facts used throughout -/

theorem str_eq_empty_iff (s : String) : s = "" ↔ s.data = [] :=
  ⟨fun h => h ▸ rfl, fun h => String.ext h⟩

theorem append_ne_empty_right (a b : String) (h : b ≠ "") : a ++ b ≠ "" := by
  intro hc
  apply h
  rw [str_eq_empty_iff] at hc ⊢
  rw [String.data_append] at hc
  exact (List.append_eq_nil.mp hc).2

theorem startsWithQuote_ne_empty {s : String} (h : startsWithQuote s = true) : s ≠ "" := by
  intro hc
  rw [hc] at h
  simp [startsWithQuote] at h

theorem encloseInQuotes_ne_empty (s : String) : encloseInQuotes s ≠ "" := by
  unfold encloseInQuotes
  split
  · next h => exact startsWithQuote_ne_empty (Bool.and_elim_left h)
  · exact append_ne_empty_right _ _ (by intro hc; simp [str_eq_empty_iff] at hc)

theorem startsWithQuote_quoted (s : String) : startsWithQuote ("\"" ++ s ++ "\"") = true := by
  have hd : ("\"" ++ s ++ "\"").data = '"' :: (s.data ++ ['"']) := by
    rw [String.data_append, String.data_append]
    rfl
  unfold startsWithQuote
  rw [hd]
  simp

theorem endsWithQuote_quoted (s : String) : endsWithQuote ("\"" ++ s ++ "\"") = true := by
  have hd : ("\"" ++ s ++ "\"").data = ("\"" ++ s).data ++ ['"'] := by
    rw [String.data_append]
  unfold endsWithQuote
  rw [hd, List.getLast?_concat]
  simp

/-! ## C7: quoting -/

/-- C7: `encloseInQuotes` is idempotent, and concretely it returns a string
already starting and ending with a double quote unchanged, while wrapping any
other string in double quotes. -/
theorem quoteIdempotent (s : String) :
    encloseInQuotes (encloseInQuotes s) = encloseInQuotes s
    ∧ ((startsWithQuote s && endsWithQuote s) = true → encloseInQuotes s = s)
    ∧ ((startsWithQuote s && endsWithQuote s) = false →
        encloseInQuotes s = "\"" ++ s ++ "\"") := by
  refine ⟨?_, fun h => by simp [encloseInQuotes, h], fun h => by simp [encloseInQuotes, h]⟩
  by_cases h : (startsWithQuote s && endsWithQuote s) = true
  · simp [encloseInQuotes, h]
  · have h1 : encloseInQuotes s = "\"" ++ s ++ "\"" := by simp [encloseInQuotes, h]
    rw [h1]
    simp [encloseInQuotes, startsWithQuote_quoted, endsWithQuote_quoted]

/-- Witness for C7 at concrete inputs: an unquoted string gains quotes, an
already-quoted string is unchanged, and requoting is the identity. -/
theorem quoteIdempotent_witness :
    encloseInQuotes (encloseInQuotes "a b") = encloseInQuotes "a b"
    ∧ encloseInQuotes "\"q\"" = "\"q\""
    ∧ encloseInQuotes "a b" = "\"" ++ "a b" ++ "\"" :=
  ⟨(quoteIdempotent "a b").1,
   (quoteIdempotent "\"q\"").2.1 (by decide),
   (quoteIdempotent "a b").2.2 (by decide)⟩

/-! ## C1: manual-mode precedence -/

/-- C1: a non-empty `commandOverride` short-circuits `getCommand`: the result is
the override itself, prefixed by the sandbox host-escape prefix exactly when
sandboxed, and any two Tools sharing that override produce identical output
regardless of every other field. -/
theorem manualOverridePrecedence (t : Tool) (sandboxed : Bool)
    (h : t.command_overwrite ≠ "") :
    t.getCommand sandboxed =
      (if sandboxed then "flatpak-spawn --host " ++ t.command_overwrite
       else t.command_overwrite)
    ∧ ∀ t' : Tool, t'.command_overwrite = t.command_overwrite →
        t'.getCommand sandboxed = t.getCommand sandboxed := by
  constructor
  · simp only [Tool.getCommand, if_pos h]
  · intro t' h'
    simp only [Tool.getCommand, h', if_pos h]

/-- Witness for C1 at a concrete override Tool, sandboxed. -/
theorem manualOverridePrecedence_witness :
    Tool.getCommand overrideExampleTool true = "flatpak-spawn --host " ++ "mycmd --flag" :=
  (manualOverridePrecedence overrideExampleTool true (by decide)).1

/-! ## C3: steam runtime -/

/-- C3: with no override and `runtime == steam`, the command is the optional
host-escape prefix, then the Steam invocation chosen by `useFlatpakRuntime`,
then `-applaunch <steamAppId>`; no other field influences the output. -/
theorem steamRuntimeCommand (t : Tool) (sandboxed : Bool)
    (h₁ : t.command_overwrite = "") (h₂ : t.runtime = Runtime.steam) :
    t.getCommand sandboxed =
      (if sandboxed then "flatpak-spawn --host " else "")
        ++ (if t.use_flatpak_runtime then "flatpak run com.valvesoftware.Steam " else "steam ")
        ++ "-applaunch " ++ toString t.steam_app_id
    ∧ ∀ t' : Tool, t'.command_overwrite = "" → t'.runtime = Runtime.steam →
        t'.use_flatpak_runtime = t.use_flatpak_runtime → t'.steam_app_id = t.steam_app_id →
        t'.getCommand sandboxed = t.getCommand sandboxed := by
  constructor
  · cases hu : t.use_flatpak_runtime <;>
      simp [Tool.getCommand, h₁, h₂, hu, String.append_assoc]
  · intro t' h₁' h₂' hu hid
    cases hu' : t.use_flatpak_runtime <;>
      rw [hu'] at hu <;>
      simp [Tool.getCommand, h₁, h₂, h₁', h₂', hu, hid, hu']

/-- Witness for C3 at a concrete steam Tool. -/
theorem steamRuntimeCommand_witness :
    Tool.getCommand steamExampleTool false =
      (if false then "flatpak-spawn --host " else "")
        ++ (if steamExampleTool.use_flatpak_runtime then "flatpak run com.valvesoftware.Steam "
            else "steam ")
        ++ "-applaunch " ++ toString steamExampleTool.steam_app_id :=
  (steamRuntimeCommand steamExampleTool false (by decide) (by decide)).1

/-! ## C4: the worked wine example -/

/-- C4: the spec's worked example — a wine Tool with prefix `/home/u/.wine`,
executable `/games/app.exe`, arguments `--fullscreen` and no working directory
synthesizes exactly `WINEPREFIX="/home/u/.wine" wine "/games/app.exe"
--fullscreen` natively (no `cd` prefix). -/
theorem wineExampleBuildCommand :
    Tool.getCommand wineExampleTool false
      = "WINEPREFIX=\"/home/u/.wine\" wine \"/games/app.exe\" --fullscreen" := by
  decide

/-! ## C6: legacy-schema runtime defaulting -/

theorem getMem_of_not_isMember (j : Json) (k : String) (h : j.isMember k = false) :
    j.getMem k = Json.null := by
  cases j <;> try rfl
  next fields =>
    simp only [Json.isMember] at h
    simp only [Json.getMem]
    rw [List.find?_eq_none.mpr (fun x hx => by simpa using List.any_eq_false.mp h x hx)]

theorem applyLauncherFields_runtime (j : Json) (t : Tool) :
    (applyLauncherFields j t).runtime = t.runtime := by
  unfold applyLauncherFields
  repeat' split
  all_goals rfl

set_option maxHeartbeats 1000000 in
/-- C6: on a legacy document (no `use_flatpak_runtime` key), deserialization
yields `runtime == native` when the `runtime` key is absent, and also when it is
a string other than "wine", "protontricks" or "steam". -/
theorem legacyRuntimeDefault (j : Json) (h : j.isMember "use_flatpak_runtime" = false) :
    (j.isMember "runtime" = false → (Tool.fromJson j).runtime = Runtime.native)
    ∧ ∀ s : String, j.getMem "runtime" = Json.str s →
        s ≠ "wine" → s ≠ "protontricks" → s ≠ "steam" →
        (Tool.fromJson j).runtime = Runtime.native := by
  constructor
  · intro hr
    unfold Tool.fromJson
    rw [if_pos (by rw [h]; exact rfl)]
    dsimp only
    rw [applyLauncherFields_runtime, hr]
    rw [if_neg (by intro hc; cases hc)]
    (repeat' split) <;> rfl
  · intro s hs hw hp hst
    cases hm : j.isMember "runtime" with
    | false =>
      exact absurd (hs ▸ getMem_of_not_isMember j "runtime" hm) (by intro hc; cases hc)
    | true =>
      unfold Tool.fromJson
      rw [if_pos (by rw [h]; exact rfl)]
      dsimp only
      rw [applyLauncherFields_runtime]
      rw [hm, hs]
      rw [if_pos rfl]
      dsimp only [Json.isString, Json.asString]
      rw [if_pos rfl]
      unfold parseRuntimeString
      rw [if_neg hp, if_neg hw, if_neg hst]

/-- Witness for C6: a legacy document without `runtime`, and one with the
unrecognized runtime string "wineX", both parse to `native`. -/
theorem legacyRuntimeDefault_witness :
    (Tool.fromJson (Json.obj [("name", Json.str "x")])).runtime = Runtime.native
    ∧ (Tool.fromJson (Json.obj [("name", Json.str "x"),
        ("runtime", Json.str "wineX")])).runtime = Runtime.native :=
  ⟨(legacyRuntimeDefault (Json.obj [("name", Json.str "x")]) (by decide)).1 (by decide),
   (legacyRuntimeDefault (Json.obj [("name", Json.str "x"), ("runtime", Json.str "wineX")])
      (by decide)).2 "wineX" rfl (by decide) (by decide) (by decide)⟩

/-! ## C8: Proton resolution precedence -/

theorem isPrefixList_self (l : List Char) : isPrefixList l l = true := by
  induction l with
  | nil => rfl
  | cons a as ih => simp [isPrefixList, ih]

theorem strContains_self (s : String) : strContains s s = true := by
  unfold strContains
  cases hd : s.data with
  | nil => rfl
  | cons a as => simp [containsList, isPrefixList_self]

/-- C8: Proton resolution prefers an exactly-named subdirectory over substring
matches (in particular for `GE-Proton9-2` vs `GE-Proton9-2-rc`), and returns
nothing when no directory entry matches exactly or by substring. -/
theorem protonResolution (v d : String) (entries : List (String × Bool)) :
    (entries.find? (fun e => e.1 == v) = some (v, true) →
        findProtonPath v d (some entries) = d ++ "/" ++ v)
    ∧ findProtonPath "GE-Proton9-2" d
        (some [("GE-Proton9-2-rc", true), ("GE-Proton9-2", true)]) = d ++ "/" ++ "GE-Proton9-2"
    ∧ ((∀ e ∈ entries, e.2 = true → strContains e.1 v = false) →
        findProtonPath v d (some entries) = "") := by
  refine ⟨fun h => by simp [findProtonPath, h], rfl, fun h => ?_⟩
  have hscan : entries.find? (fun e => e.2 && strContains e.1 v) = none := by
    refine List.find?_eq_none.mpr (fun e he => ?_)
    cases he2 : e.2 with
    | false => simp
    | true => simp [h e he he2]
  unfold findProtonPath
  cases hfind : entries.find? (fun e => e.1 == v) with
  | none => simp [hfind, hscan]
  | some e =>
    have hev : e.1 = v := by simpa using List.find?_some hfind
    cases he2 : e.2 with
    | false => simp [hfind, hscan, he2]
    | true =>
      have := h e (List.mem_of_find?_eq_some hfind) he2
      rw [hev, strContains_self] at this
      cases this

/-- Witness for C8: exact-match and no-match conjuncts applied at concrete
directory listings. -/
theorem protonResolution_witness :
    findProtonPath "GE-Proton9-2" "/t" (some [("GE-Proton9-2", true)]) = "/t" ++ "/" ++ "GE-Proton9-2"
    ∧ findProtonPath "GE-Proton9-2" "/t" (some [("GE-Proton8", true), ("notes.txt", false)]) = "" :=
  ⟨(protonResolution "GE-Proton9-2" "/t" [("GE-Proton9-2", true)]).1 (by decide),
   (protonResolution "GE-Proton9-2" "/t" [("GE-Proton8", true), ("notes.txt", false)]).2.2
      (by decide)⟩

/-! ## C9: per-game config required keys -/

/-- C9 counterexample: a parsed document carrying both required keys, but with
an array as the value of `install_path`.  Both keys are present, yet
`Json::Value::asString` throws on the array; the exception is caught at
heroicdetector.cpp:173-178 and the program returns nothing rather than an info
record carrying the two values, refuting the claim's both-keys-present case. -/
theorem gameConfigWrongTypeCounterexample :
    (Json.obj [("install_path", Json.arr []), ("winePrefix", Json.str "/p")]).isMember
        "install_path" = true
    ∧ (Json.obj [("install_path", Json.arr []), ("winePrefix", Json.str "/p")]).isMember
        "winePrefix" = true
    ∧ parseGameConfig "Croc"
        (Json.obj [("install_path", Json.arr []), ("winePrefix", Json.str "/p")]) "/t" none
        = none := by
  refine ⟨by decide, by decide, by decide⟩

/-- C9 (amended): for a game config file that exists and parses, a missing
`install_path` or `winePrefix` key makes `parseGameConfig` return `none` (not
an error); a wrong-typed `install_path` or `winePrefix` value (one on which
`asString` throws) likewise returns `none` via the caught `Json::Exception`;
and when both keys are present, their values convert, and the optional
`wineVersion` accesses do not throw, it returns an info record carrying
exactly those two converted values. -/
theorem gameConfigRequiredKeys (app : String) (doc : Json) (d : String)
    (listing : Option (List (String × Bool))) :
    (doc.isMember "install_path" = false → parseGameConfig app doc d listing = none)
    ∧ (doc.isMember "winePrefix" = false → parseGameConfig app doc d listing = none)
    ∧ ((doc.getMem "install_path").asStringT = none → parseGameConfig app doc d listing = none)
    ∧ ((doc.getMem "winePrefix").asStringT = none → parseGameConfig app doc d listing = none)
    ∧ (∀ iv wv : String,
        doc.isMember "install_path" = true → doc.isMember "winePrefix" = true →
        (doc.getMem "install_path").asStringT = some iv →
        (doc.getMem "winePrefix").asStringT = some wv →
        (doc.getMem "wineVersion").isMemberT "name" ≠ none →
        ((doc.getMem "wineVersion").getMem "name").asStringT ≠ none →
        ∃ info : HeroicGameInfo, parseGameConfig app doc d listing = some info
          ∧ info.app_name = app ∧ info.install_path = iv ∧ info.wine_prefix = wv) := by
  refine ⟨?_, ?_, ?_, ?_, ?_⟩
  · intro h
    cases doc <;> try rfl
    next fields =>
      simp only [Json.isMember] at h
      simp [parseGameConfig, Json.isMemberT, h]
  · intro h
    cases doc <;> try rfl
    next fields =>
      simp only [Json.isMember] at h
      cases h1 : fields.any (fun f => f.1 == "install_path") with
      | false => simp [parseGameConfig, Json.isMemberT, h1]
      | true =>
        cases h2 : ((Json.obj fields).getMem "install_path").asStringT with
        | none => simp [parseGameConfig, Json.isMemberT, h1, h2]
        | some v => simp [parseGameConfig, Json.isMemberT, h1, h2, h]
  · intro h
    cases doc <;> try rfl
    next fields =>
      cases h1 : fields.any (fun f => f.1 == "install_path") with
      | false => simp [parseGameConfig, Json.isMemberT, h1]
      | true => simp [parseGameConfig, Json.isMemberT, h1, h]
  · intro h
    cases doc <;> try rfl
    next fields =>
      cases h1 : fields.any (fun f => f.1 == "install_path") with
      | false => simp [parseGameConfig, Json.isMemberT, h1]
      | true =>
        cases h2 : ((Json.obj fields).getMem "install_path").asStringT with
        | none => simp [parseGameConfig, Json.isMemberT, h1, h2]
        | some v =>
          cases h3 : fields.any (fun f => f.1 == "winePrefix") with
          | false => simp [parseGameConfig, Json.isMemberT, h1, h2, h3]
          | true => simp [parseGameConfig, Json.isMemberT, h1, h2, h3, h]
  · intro iv wv hi hw hsi hsw hv1 hv2
    rcases doc with _ | b | n | sv | elems | fields
    · exact absurd hi (by simp [Json.isMember])
    · exact absurd hi (by simp [Json.isMember])
    · exact absurd hi (by simp [Json.isMember])
    · exact absurd hi (by simp [Json.isMember])
    · exact absurd hi (by simp [Json.isMember])
    · simp only [Json.isMember] at hi hw
      have e1 : (Json.obj fields).isMemberT "install_path"
          = some (fields.any (fun f => f.1 == "install_path")) := rfl
      have e2 : (Json.obj fields).isMemberT "winePrefix"
          = some (fields.any (fun f => f.1 == "winePrefix")) := rfl
      have e3 : (Json.obj fields).isMemberT "wineVersion"
          = some (fields.any (fun f => f.1 == "wineVersion")) := rfl
      simp only [parseGameConfig, e1, hi, hsi, e2, hw, hsw, e3]
      cases hwv : fields.any (fun f => f.1 == "wineVersion") with
      | false => exact ⟨_, rfl, rfl, rfl, rfl⟩
      | true =>
        cases hmem : ((Json.obj fields).getMem "wineVersion").isMemberT "name" with
        | none => exact absurd hmem hv1
        | some b =>
          cases b with
          | false => exact ⟨_, rfl, rfl, rfl, rfl⟩
          | true =>
            cases hname : (((Json.obj fields).getMem "wineVersion").getMem "name").asStringT with
            | none => exact absurd hname hv2
            | some wvn =>
              show ∃ info : HeroicGameInfo,
                  finishGameConfig
                    { app_name := app, install_path := iv, wine_prefix := wv,
                      wine_version := wvn } d listing = some info
                  ∧ info.app_name = app ∧ info.install_path = iv ∧ info.wine_prefix = wv
              unfold finishGameConfig
              split
              · exact ⟨_, rfl, rfl, rfl, rfl⟩
              · exact ⟨_, rfl, rfl, rfl, rfl⟩

/-- Witness for the amended C9: the Croc example config with both required keys
present and string-valued, and a config missing `install_path`. -/
theorem gameConfigRequiredKeys_witness :
    (∃ info : HeroicGameInfo,
        parseGameConfig "Croc"
          (Json.obj [("install_path", Json.str "/games/Croc"),
            ("winePrefix", Json.str "/home/u/heroic/Croc")]) "/t" none = some info
          ∧ info.app_name = "Croc"
          ∧ info.install_path = "/games/Croc"
          ∧ info.wine_prefix = "/home/u/heroic/Croc")
    ∧ parseGameConfig "Croc" (Json.obj [("winePrefix", Json.str "/p")]) "/t" none = none :=
  ⟨(gameConfigRequiredKeys "Croc"
      (Json.obj [("install_path", Json.str "/games/Croc"),
        ("winePrefix", Json.str "/home/u/heroic/Croc")]) "/t" none).2.2.2.2
      "/games/Croc" "/home/u/heroic/Croc"
      (by decide) (by decide) (by decide) (by decide) (by decide) (by decide),
   (gameConfigRequiredKeys "Croc" (Json.obj [("winePrefix", Json.str "/p")]) "/t" none).1
      (by decide)⟩

/-! ## The map comparator versus the ambient String order -/

theorem charListLt_iff (l₁ l₂ : List Char) : charListLt l₁ l₂ = true ↔ l₁ < l₂ := by
  show _ ↔ List.Lex (fun a b => a < b) l₁ l₂
  induction l₁ generalizing l₂ with
  | nil =>
    cases l₂ with
    | nil =>
      constructor
      · intro hc
        simp [charListLt] at hc
      · intro hc
        cases hc
    | cons b bs =>
      constructor
      · intro hc
        exact List.Lex.nil
      · intro hc
        rfl
  | cons a as ih =>
    cases l₂ with
    | nil =>
      constructor
      · intro hc
        simp [charListLt] at hc
      · intro hc
        cases hc
    | cons b bs =>
      simp only [charListLt]
      by_cases hab : a < b
      · simp only [if_pos hab]
        constructor
        · intro hc
          exact List.Lex.rel hab
        · intro hc
          trivial
      · simp only [if_neg hab]
        by_cases hba : b < a
        · simp only [if_pos hba]
          constructor
          · intro hc
            cases hc
          · intro hc
            cases hc with
            | rel h' => exact absurd h' hab
            | cons h' => exact absurd hba (lt_irrefl a)
        · simp only [if_neg hba]
          have hEq : a = b := le_antisymm (le_of_not_lt hba) (le_of_not_lt hab)
          subst hEq
          rw [ih bs]
          constructor
          · intro hc
            exact List.Lex.cons hc
          · intro hc
            cases hc with
            | rel h' => exact absurd h' hab
            | cons h' => exact h'

theorem strLt_iff (a b : String) : strLt a b = true ↔ a < b := by
  rw [String.lt_iff_toList_lt]
  exact charListLt_iff a.data b.data

theorem strLt_eq_false_iff (a b : String) : strLt a b = false ↔ ¬a < b := by
  rw [← strLt_iff]
  cases strLt a b <;> simp

/-- If neither `strLt k k₁` nor `k = k₁`, the comparator puts `k₁` first. -/
theorem lt_of_not_strLt_of_ne {k k₁ : String} (h₁ : strLt k k₁ = false) (h₂ : k ≠ k₁) :
    k₁ < k := by
  rcases lt_trichotomy k k₁ with hlt | heq | hgt
  · exact absurd hlt ((strLt_eq_false_iff k k₁).mp h₁)
  · exact absurd heq h₂
  · exact hgt

/-! ## Sortedness of the map model -/

theorem mem_mapInsert (m : List (String × String)) (k v : String) (x : String × String) :
    x ∈ mapInsert m k v → x ∈ m ∨ x.1 = k := by
  induction m with
  | nil =>
    intro hx
    simp [mapInsert] at hx
    exact Or.inr (hx ▸ rfl)
  | cons kv₁ rest ih =>
    obtain ⟨k₁, v₁⟩ := kv₁
    intro hx
    unfold mapInsert at hx
    by_cases h₁ : strLt k k₁ = true
    · rw [if_pos h₁] at hx
      rw [List.mem_cons] at hx
      rcases hx with hx | hx
      · exact Or.inr (by rw [hx])
      · exact Or.inl hx
    · rw [if_neg h₁] at hx
      by_cases h₂ : k = k₁
      · rw [if_pos h₂] at hx
        rw [List.mem_cons] at hx
        rcases hx with hx | hx
        · exact Or.inr (by rw [hx]; exact h₂.symm)
        · exact Or.inl (List.mem_cons_of_mem _ hx)
      · rw [if_neg h₂] at hx
        rw [List.mem_cons] at hx
        rcases hx with hx | hx
        · exact Or.inl (by rw [hx]; exact List.mem_cons_self _ _)
        · rcases ih hx with hm | hk
          · exact Or.inl (List.mem_cons_of_mem _ hm)
          · exact Or.inr hk

theorem pairwise_mapInsert (m : List (String × String)) (k v : String) :
    List.Pairwise (fun a b => a.1 < b.1) m →
    List.Pairwise (fun a b => a.1 < b.1) (mapInsert m k v) := by
  induction m with
  | nil =>
    intro
    simp [mapInsert]
  | cons kv₁ rest ih =>
    obtain ⟨k₁, v₁⟩ := kv₁
    intro hm
    rw [List.pairwise_cons] at hm
    obtain ⟨hhead, htail⟩ := hm
    unfold mapInsert
    by_cases h₁ : strLt k k₁ = true
    · rw [if_pos h₁]
      have hk : k < k₁ := (strLt_iff k k₁).mp h₁
      refine List.Pairwise.cons ?_ (List.Pairwise.cons hhead htail)
      intro x hx
      rw [List.mem_cons] at hx
      rcases hx with hx | hx
      · rw [hx]
        exact hk
      · exact lt_trans hk (hhead x hx)
    · rw [if_neg h₁]
      by_cases h₂ : k = k₁
      · rw [if_pos h₂]
        exact List.Pairwise.cons hhead htail
      · rw [if_neg h₂]
        have hsf : strLt k k₁ = false := by
          cases hs : strLt k k₁
          · rfl
          · exact absurd hs h₁
        have hk₁ : k₁ < k := lt_of_not_strLt_of_ne hsf h₂
        refine List.Pairwise.cons ?_ (ih htail)
        intro x hx
        rcases mem_mapInsert rest k v x hx with hm | hk
        · exact hhead x hm
        · rw [hk]
          exact hk₁

theorem mkMap_pairwise (l : List (String × String)) :
    List.Pairwise (fun a b => a.1 < b.1) (mkMap l) := by
  have : ∀ m, List.Pairwise (fun a b : String × String => a.1 < b.1) m →
      List.Pairwise (fun a b : String × String => a.1 < b.1)
        (l.foldl (fun m kv => mapInsert m kv.1 kv.2) m) := by
    induction l with
    | nil => exact fun m hm => hm
    | cons kv rest ih => exact fun m hm => ih _ (pairwise_mapInsert m kv.1 kv.2 hm)

  exact this [] List.Pairwise.nil

theorem mapInsert_append (m : List (String × String)) (k v : String)
    (h : ∀ x ∈ m, x.1 < k) : mapInsert m k v = m ++ [(k, v)] := by
  induction m with
  | nil => rfl
  | cons kv₁ rest ih =>
    obtain ⟨k₁, v₁⟩ := kv₁
    have hk₁ : k₁ < k := h (k₁, v₁) (List.mem_cons_self _ _)
    have hsf : strLt k k₁ = false := (strLt_eq_false_iff k k₁).mpr (lt_asymm hk₁)
    unfold mapInsert
    rw [if_neg (by simp [hsf]), if_neg (ne_of_gt hk₁),
      ih (fun x hx => h x (List.mem_cons_of_mem _ hx))]
    rfl

theorem mkMap_sorted_id (l : List (String × String))
    (h : List.Pairwise (fun a b => a.1 < b.1) l) : mkMap l = l := by
  have main : ∀ l m, List.Pairwise (fun a b : String × String => a.1 < b.1) (m ++ l) →
      l.foldl (fun m kv => mapInsert m kv.1 kv.2) m = m ++ l := by
    intro l
    induction l with
    | nil => intro m _; simp
    | cons kv rest ih =>
      intro m hm
      obtain ⟨k, v⟩ := kv
      have hmk : ∀ x ∈ m, x.1 < k := by
        intro x hx
        exact (List.pairwise_append.mp hm).2.2 x hx (k, v) (List.mem_cons_self _ _)
      have hstep : mapInsert m k v = m ++ [(k, v)] := mapInsert_append m k v hmk
      show List.foldl _ (mapInsert m k v) rest = m ++ (k, v) :: rest
      rw [hstep]
      have : (m ++ [(k, v)]) ++ rest = m ++ (k, v) :: rest := by simp
      rw [← this]
      exact ih (m ++ [(k, v)]) (by rw [this]; exact hm)
  have := main l [] (by simpa using h)
  simpa [mkMap] using this

/-! ## C10: environment-variable ordering -/

/-- C10: the environment mapping is key-sorted (any insertion sequence yields a
list whose keys ascend lexicographically), so both `appendEnvironmentVariables`
(which renders the list in order) and `toJson` (which serializes it in order)
emit ascending key order; in particular the Heroic branch's compat-variable map
puts `STEAM_COMPAT_CLIENT_INSTALL_PATH` before `STEAM_COMPAT_DATA_PATH`, and the
rendered prefix shows CLIENT first. -/
theorem envAscendingOrder (l : List (String × String)) (p : String) (t : Tool) :
    List.Pairwise (fun a b => a.1 < b.1) (mkMap l)
    ∧ mkMap [("STEAM_COMPAT_DATA_PATH", p), ("STEAM_COMPAT_CLIENT_INSTALL_PATH", "/usr")]
        = [("STEAM_COMPAT_CLIENT_INSTALL_PATH", "/usr"), ("STEAM_COMPAT_DATA_PATH", p)]
    ∧ (Tool.toJson t).getMem "environment_variables"
        = Json.arr (t.environment_variables.map
            (fun kv => Json.obj [("variable", Json.str kv.1), ("value", Json.str kv.2)]))
    ∧ appendEnvironmentVariables ""
        (mkMap [("STEAM_COMPAT_DATA_PATH", p), ("STEAM_COMPAT_CLIENT_INSTALL_PATH", "/usr")])
        false
        = "STEAM_COMPAT_CLIENT_INSTALL_PATH=" ++ encloseInQuotes "/usr" ++ " "
            ++ "STEAM_COMPAT_DATA_PATH=" ++ encloseInQuotes p :=
  ⟨mkMap_pairwise l, rfl, rfl, rfl⟩

/-! ## C5: codec round-trip -/

/-- C5: serializing any Tool expressible in the current schema (its environment
list is the content of a key-sorted `std::map`) and deserializing the result
reproduces every field exactly, including environment-variable order. -/
theorem codecRoundTrip (t : Tool)
    (h : List.Pairwise (fun a b : String × String => a.1 < b.1) t.environment_variables) :
    Tool.fromJson (Tool.toJson t) = t := by
  have hrt : intToRuntime (runtimeToInt t.runtime) = t.runtime := by
    cases t.runtime <;> rfl
  have hlt : intToLauncherType (launcherTypeToInt t.launcher_type) = t.launcher_type := by
    cases t.launcher_type <;> rfl
  have henv : List.foldl (fun m kv => mapInsert m kv.1 kv.2) [] t.environment_variables
      = t.environment_variables :=
    mkMap_sorted_id t.environment_variables h
  simp [Tool.fromJson, Tool.toJson, Json.getMem, Json.isMember, Json.asString, Json.asBool,
    Json.asInt, Json.isString, readEnvList, applyLauncherFields, List.foldl_map, hrt, hlt, henv]

/-- Witness for C5 at a fully populated Tool with a two-entry sorted
environment. -/
theorem codecRoundTrip_witness : Tool.fromJson (Tool.toJson envExampleTool) = envExampleTool :=
  codecRoundTrip envExampleTool
    (by
      refine List.Pairwise.cons ?_ (List.Pairwise.cons (by intro x hx; cases hx) List.Pairwise.nil)
      intro x hx
      rw [List.mem_singleton] at hx
      subst hx
      exact (strLt_iff "A" "B").mp rfl)

/-! ## C2: the Heroic/protontricks branch -/

theorem appendEnvVarStep_ne_empty (fp : Bool) (c : String) (kv : String × String) :
    appendEnvVarStep fp c kv ≠ "" := by
  unfold appendEnvVarStep
  exact append_ne_empty_right _ _ (encloseInQuotes_ne_empty kv.2)

theorem appendEnv_ne_empty (fp : Bool) (l : List (String × String)) :
    ∀ c : String, c ≠ "" → appendEnvironmentVariables c l fp ≠ "" := by
  induction l with
  | nil => exact fun c hc => hc
  | cons kv rest ih =>
    intro c hc
    show appendEnvironmentVariables (appendEnvVarStep fp c kv) rest fp ≠ ""
    exact ih _ (appendEnvVarStep_ne_empty fp c kv)

theorem appendEnv_cons_ne_empty (fp : Bool) (c : String) (kv : String × String)
    (rest : List (String × String)) :
    appendEnvironmentVariables c (kv :: rest) fp ≠ "" := by
  show appendEnvironmentVariables (appendEnvVarStep fp c kv) rest fp ≠ ""
  exact appendEnv_ne_empty fp rest _ (appendEnvVarStep_ne_empty fp c kv)

theorem appendEnvironmentVariables_append (c : String) (l₁ l₂ : List (String × String))
    (fp : Bool) :
    appendEnvironmentVariables (appendEnvironmentVariables c l₁ fp) l₂ fp
      = appendEnvironmentVariables c (l₁ ++ l₂) fp := by
  unfold appendEnvironmentVariables
  rw [List.foldl_append]

theorem mkMapCompat (p : String) :
    mkMap [("STEAM_COMPAT_DATA_PATH", p), ("STEAM_COMPAT_CLIENT_INSTALL_PATH", "/usr")]
      = [("STEAM_COMPAT_CLIENT_INSTALL_PATH", "/usr"), ("STEAM_COMPAT_DATA_PATH", p)] := rfl

theorem heroicBranchEq (t : Tool) (sandboxed : Bool)
    (h₁ : t.command_overwrite = "") (h₂ : t.launcher_type = LauncherType.heroic)
    (h₃ : t.runtime = Runtime.protontricks) :
    t.getCommand sandboxed = sortedHeroicCommand t sandboxed := by
  cases sandboxed <;> by_cases hwd : t.working_directory = "" <;>
    by_cases hargs : t.arguments = "" <;>
    simp [Tool.getCommand, sortedHeroicCommand, heroicSpecCommand, h₁, h₂, h₃, hwd, hargs,
      mkMapCompat, appendEnvironmentVariables_append, appendEnv_cons_ne_empty,
      ← String.append_assoc, String.append_empty, String.empty_append]

/-- C2 counterexample: at a concrete Heroic/protontricks Tool (no working
directory, no user environment variables), the synthesized command differs from
the claim's rendition, which lists `STEAM_COMPAT_DATA_PATH` before
`STEAM_COMPAT_CLIENT_INSTALL_PATH`: the key-sorted map emits CLIENT first. -/
theorem heroicOrderCounterexample :
    Tool.getCommand heroicExampleTool false ≠ claimedHeroicCommand heroicExampleTool false := by
  decide

/-- C2 (amended): with empty override, `launcherType == heroic` and
`runtime == protontricks`, the command is the host-escape prefix (when
sandboxed), the optional working-directory prefix, the two Proton compat
variables in key-sorted map order — `STEAM_COMPAT_CLIENT_INSTALL_PATH=/usr`
before `STEAM_COMPAT_DATA_PATH=<prefixPath>` — followed by the user
`environmentVariables`, each rendered per the quoting/sandbox rule, then
`"<protonPath>/proton" run "<executablePath>"` and the raw arguments;
`protontricksArguments` has no effect on the output. -/
theorem heroicProtontricksCommand (t : Tool) (sandboxed : Bool)
    (h₁ : t.command_overwrite = "") (h₂ : t.launcher_type = LauncherType.heroic)
    (h₃ : t.runtime = Runtime.protontricks) :
    t.getCommand sandboxed = sortedHeroicCommand t sandboxed
    ∧ ∀ s : String,
        Tool.getCommand { t with protontricks_arguments := s } sandboxed
          = t.getCommand sandboxed := by
  refine ⟨heroicBranchEq t sandboxed h₁ h₂ h₃, fun s => ?_⟩
  rw [heroicBranchEq { t with protontricks_arguments := s } sandboxed h₁ h₂ h₃,
    heroicBranchEq t sandboxed h₁ h₂ h₃]
  rfl

/-- Witness for the amended C2 at a concrete Heroic/protontricks Tool. -/
theorem heroicProtontricksCommand_witness :
    Tool.getCommand heroicExampleTool false = sortedHeroicCommand heroicExampleTool false :=
  (heroicProtontricksCommand heroicExampleTool false rfl rfl rfl).1
